import Mathlib

/-!
Verification of the language-inference pipeline of `audio_lid/audio_lid.py`
(class `AudioLID`, method `infer_language`).

The external collaborators (`SpeechDetecting.load_audio_samples`,
`SpeechDetecting.find_speech_list`, `LanguageIdentify.infer`) are modelled
as oracle functions packaged in structures; audio sample buffers are opaque
tokens (`Nat`), scores are exact rationals (`ℚ`) standing for the Python
floats, and status codes are integers (`ℤ`).  Python dicts iterated with
`items()` are modelled as association lists in insertion order, which is
exactly the iteration order Python guarantees.
-/

namespace AudioLid

/-- `min_threshold = 0.4`, the validity floor from `infer_language` (line 103). -/
def min_threshold : ℚ := 2 / 5

/-- Modelled from the spec: the numeric value lives in `error_codes.py`, which
is not part of the sources; the spec fixes only that the "no valid language"
code is a distinguished negative error code. -/
def ERROR_CODE_NO_VALID_LANGUAGE : ℤ := -1

/-- A speech segment produced by the speech detector; only its sample buffer
(an opaque token) is consumed by `infer_language`. -/
structure SpeechObj where
  samples : ℕ
deriving DecidableEq, Repr

/-- The configuration fields of `self.args` that `infer_language` reads. -/
structure Args where
  speech_segment_count : ℤ
  speech_segment_duration : ℤ
  speech_score_threshold : ℚ
deriving DecidableEq, Repr

/-- Oracle for the `SpeechDetecting` collaborator: `load_audio_samples`
returns a status code and an opaque sample buffer; `find_speech_list`
takes the buffer, a score threshold and a segment duration and returns a
status code and a list of speech segments. -/
structure SpeechDetecting where
  load_audio_samples : String → ℤ × ℕ
  find_speech_list : ℕ → ℚ → ℤ → ℤ × List SpeechObj

/-- Oracle for the `LanguageIdentify` collaborator: `infer` maps a batch of
sample buffers to per-segment prediction lists, keyed like the Python dict
it returns (in insertion order). -/
structure LanguageIdentify where
  infer : List ℕ → List (String × List (String × ℚ))

/-- Result of `infer_language`: either the process terminates via `exit(1)`
(load failure), or the method returns a status code together with an
optional language/percentage list. -/
inductive InferResult where
  | exit (code : ℤ)
  | ret (code : ℤ) (language_list : Option (List (String × ℚ)))
deriving DecidableEq, Repr

/-- The mutable aggregation state of the loop at lines 102–117:
`total_score`, `valid_count` and the insertion-ordered `language_score_map`. -/
structure AggState where
  total_score : ℚ
  valid_count : ℕ
  language_score_map : List (String × ℚ)
deriving DecidableEq, Repr

/-- `language_score_map[language_str] = language_score_map.get(language_str, 0) + score`
(lines 113–117): a Python dict update keeps the key at its original position
and appends a fresh key at the end. -/
def addScore : List (String × ℚ) → String → ℚ → List (String × ℚ)
  | [], lang, score => [(lang, score)]
  | (k, v) :: rest, lang, score =>
    if k = lang then (k, v + score) :: rest
    else (k, v) :: addScore rest lang score

/-- The body of the inner loop at lines 107–117: a `(language_str, score)`
pair is skipped when `score < min_threshold`, otherwise `valid_count`,
`total_score` and the language score map are updated. -/
def processPair (st : AggState) (p : String × ℚ) : AggState :=
  if p.2 < min_threshold then st
  else
    { total_score := st.total_score + p.2
      valid_count := st.valid_count + 1
      language_score_map := addScore st.language_score_map p.1 p.2 }

/-- The comparison used by `sorted(result_list, key=lambda o: o[1], reverse=True)`
(line 127): descending by the percentage component. -/
def byPercentDesc (a b : String × ℚ) : Prop := b.2 ≤ a.2

instance : DecidableRel byPercentDesc := fun a b =>
  inferInstanceAs (Decidable (b.2 ≤ a.2))

instance : IsTotal (String × ℚ) byPercentDesc := ⟨fun a b => le_total b.2 a.2⟩

instance : IsTrans (String × ℚ) byPercentDesc :=
  ⟨fun _ _ _ h h' => le_trans h' h⟩

/-- The state after the two nested loops of lines 102–117 over the whole
prediction batch. -/
def aggregateState (predictions : List (String × List (String × ℚ))) : AggState :=
  predictions.foldl (fun st pred => pred.2.foldl processPair st)
    ⟨0, 0, []⟩

/-- Lines 102–131: aggregation of the classifier predictions.  When the
language score map stays empty the distinguished error code is returned with
no result; otherwise each accumulated score is normalized to
`score * 100 / total_score` and the list is sorted descending by percentage
(Python's `sorted` is stable, as is `List.insertionSort`). -/
def aggregate (predictions : List (String × List (String × ℚ))) :
    ℤ × Option (List (String × ℚ)) :=
  let st := aggregateState predictions
  if st.language_score_map.length = 0 then (ERROR_CODE_NO_VALID_LANGUAGE, none)
  else
    let result_list :=
      st.language_score_map.map (fun p => (p.1, p.2 * 100 / st.total_score))
    ((st.valid_count : ℤ), some (result_list.insertionSort byPercentDesc))

/-- Lines 61–69: the first segmentation pass, followed by exactly one relaxed
pass when the first returns a count `c` with `0 ≤ c < speech_segment_count`.
`0.2` and `0.4` are the Python literals of line 67. -/
def find_speech_with_retry (args : Args) (sd : SpeechDetecting) (samples : ℕ) :
    ℤ × List SpeechObj :=
  let first := sd.find_speech_list samples args.speech_score_threshold
    args.speech_segment_duration
  if 0 ≤ first.1 ∧ first.1 < args.speech_segment_count then
    sd.find_speech_list samples (max (args.speech_score_threshold - 1/5) (2/5))
      (max (args.speech_segment_duration - 2) 3)
  else first

/-- Same control flow as `find_speech_with_retry`, additionally recording the
`(threshold, duration)` argument pair of every `find_speech_list` invocation,
in call order. -/
def find_speech_with_retry_traced (args : Args) (sd : SpeechDetecting)
    (samples : ℕ) : (ℤ × List SpeechObj) × List (ℚ × ℤ) :=
  let first := sd.find_speech_list samples args.speech_score_threshold
    args.speech_segment_duration
  if 0 ≤ first.1 ∧ first.1 < args.speech_segment_count then
    (sd.find_speech_list samples (max (args.speech_score_threshold - 1/5) (2/5))
        (max (args.speech_segment_duration - 2) 3),
      [(args.speech_score_threshold, args.speech_segment_duration),
        (max (args.speech_score_threshold - 1/5) (2/5),
          max (args.speech_segment_duration - 2) 3)])
  else
    (first, [(args.speech_score_threshold, args.speech_segment_duration)])

/-- `AudioLID.infer_language` (lines 44–131), with the debug-only file dumps
(lines 71–94, side effects only) omitted.  `exit(1)` on a failed load is the
`InferResult.exit 1` outcome. -/
def infer_language (args : Args) (sd : SpeechDetecting) (li : LanguageIdentify)
    (audio_file : String) : InferResult :=
  let load := sd.load_audio_samples audio_file
  if load.1 < 0 then .exit 1
  else
    let found := find_speech_with_retry args sd load.2
    if found.1 < 0 then .ret found.1 none
    else
      let predictions := li.infer (found.2.map SpeechObj.samples)
      let agg := aggregate predictions
      .ret agg.1 agg.2

/-! ### Derived views of the prediction batch used by the statements -/

/-- All `(language, score)` pairs of the batch, flattened in iteration order. -/
def allPairs (predictions : List (String × List (String × ℚ))) :
    List (String × ℚ) :=
  (predictions.map Prod.snd).flatten

/-- Whether a pair survives the validity floor of line 108. -/
def keptB (p : String × ℚ) : Bool := !decide (p.2 < min_threshold)

/-- The pairs that survive the validity floor, in iteration order. -/
def keptPairs (predictions : List (String × List (String × ℚ))) :
    List (String × ℚ) :=
  (allPairs predictions).filter keptB

/-- Lookup in an association list with default `0`, matching the
`language_total_score` read of lines 113–115. -/
def lookupScore : List (String × ℚ) → String → ℚ
  | [], _ => 0
  | (k, v) :: rest, lang => if k = lang then v else lookupScore rest lang

/-- The sum of all accumulated scores stored in a language score map. -/
def valuesSum (m : List (String × ℚ)) : ℚ := (m.map Prod.snd).sum

/-! ### Concrete fixtures used to instantiate the theorems -/

/-- The batch of the spec's worked scenario: `fra` at `0.3` is below the floor,
both `eng` scores survive. -/
def exPred : List (String × List (String × ℚ)) :=
  [("s1", [("eng", 4/5), ("fra", 3/10)]), ("s2", [("eng", 3/5)])]

/-- A batch whose only score is below the validity floor. -/
def exLowPred : List (String × List (String × ℚ)) := [("s1", [("eng", 3/10)])]

/-- The default configuration: count 5, duration 5s, threshold 0.7. -/
def exArgs : Args := ⟨5, 5, 7/10⟩

/-- A sample speech segment token. -/
def exSpeech : SpeechObj := ⟨0⟩

/-- Speech detector whose first pass (threshold `0.7`) finds 2 segments and
whose relaxed pass finds 5. -/
def sdRetryOk : SpeechDetecting :=
  ⟨fun _ => (0, 0), fun _ t _ => if t = 7/10 then (2, [exSpeech]) else (5, [exSpeech])⟩

/-- Speech detector that always fails with status `-2`. -/
def sdFindFail : SpeechDetecting := ⟨fun _ => (0, 0), fun _ _ _ => (-2, [])⟩

/-- Speech detector whose audio load fails with status `-1`. -/
def sdLoadFail : SpeechDetecting := ⟨fun _ => (-1, 0), fun _ _ _ => (0, [])⟩

/-- Speech detector whose first pass finds 2 segments and whose relaxed
retry pass fails with status `-3`. -/
def sdRetryNeg : SpeechDetecting :=
  ⟨fun _ => (0, 0), fun _ t _ => if t = 7/10 then (2, [exSpeech]) else (-3, [])⟩

/-- A classifier returning the fixture batch `exPred` for any input. -/
def liEx : LanguageIdentify := ⟨fun _ => exPred⟩

/-! ### Lemmas about the aggregation fold -/

lemma allPairs_cons (pred : String × List (String × ℚ))
    (rest : List (String × List (String × ℚ))) :
    allPairs (pred :: rest) = pred.2 ++ allPairs rest := by
  simp [allPairs]

lemma aggregateState_eq_foldl (predictions : List (String × List (String × ℚ))) :
    aggregateState predictions = (allPairs predictions).foldl processPair ⟨0, 0, []⟩ := by
  suffices h : ∀ (ps : List (String × List (String × ℚ))) (st : AggState),
      ps.foldl (fun st pred => pred.2.foldl processPair st) st =
        (allPairs ps).foldl processPair st from h predictions _
  intro ps
  induction ps with
  | nil => intro st; simp [allPairs]
  | cons pred rest ih =>
    intro st
    rw [List.foldl_cons, ih, allPairs_cons, List.foldl_append]

lemma processPair_of_kept (st : AggState) (p : String × ℚ) (h : keptB p = true) :
    processPair st p =
      { total_score := st.total_score + p.2
        valid_count := st.valid_count + 1
        language_score_map := addScore st.language_score_map p.1 p.2 } := by
  simp only [keptB, Bool.not_eq_true', decide_eq_false_iff_not] at h
  simp [processPair, h]

lemma processPair_of_dropped (st : AggState) (p : String × ℚ) (h : keptB p = false) :
    processPair st p = st := by
  simp only [keptB, Bool.not_eq_false', decide_eq_true_eq] at h
  simp [processPair, h]

lemma foldl_valid_count (pairs : List (String × ℚ)) :
    ∀ st : AggState, (pairs.foldl processPair st).valid_count =
      st.valid_count + (pairs.filter keptB).length := by
  induction pairs with
  | nil => intro st; simp
  | cons p pairs ih =>
    intro st
    rw [List.foldl_cons]
    cases hk : keptB p with
    | false =>
      rw [processPair_of_dropped st p hk, ih, List.filter_cons_of_neg (by simp [hk])]
    | true =>
      rw [processPair_of_kept st p hk, ih, List.filter_cons_of_pos (by simp [hk])]
      simp [Nat.add_assoc, Nat.add_comm 1]

lemma foldl_total_score (pairs : List (String × ℚ)) :
    ∀ st : AggState, (pairs.foldl processPair st).total_score =
      st.total_score + ((pairs.filter keptB).map Prod.snd).sum := by
  induction pairs with
  | nil => intro st; simp
  | cons p pairs ih =>
    intro st
    rw [List.foldl_cons]
    cases hk : keptB p with
    | false =>
      rw [processPair_of_dropped st p hk, ih, List.filter_cons_of_neg (by simp [hk])]
    | true =>
      rw [processPair_of_kept st p hk, ih, List.filter_cons_of_pos (by simp [hk])]
      simp [add_assoc]

lemma lookupScore_addScore (m : List (String × ℚ)) (k : String) (s : ℚ)
    (lang : String) :
    lookupScore (addScore m k s) lang =
      lookupScore m lang + (if k = lang then s else 0) := by
  induction m with
  | nil => by_cases h : k = lang <;> simp [addScore, lookupScore, h]
  | cons kv rest ih =>
    obtain ⟨k', v⟩ := kv
    by_cases hk : k' = k
    · subst hk
      by_cases hl : k' = lang <;> simp [addScore, lookupScore, hl]
    · by_cases hl : k' = lang
      · subst hl
        have : ¬ k = k' := fun h => hk h.symm
        simp [addScore, lookupScore, hk, this]
      · simp [addScore, lookupScore, hk, hl, ih]

lemma foldl_lookupScore (pairs : List (String × ℚ)) :
    ∀ (st : AggState) (lang : String),
      lookupScore (pairs.foldl processPair st).language_score_map lang =
        lookupScore st.language_score_map lang +
          (((pairs.filter keptB).filter (fun p => decide (p.1 = lang))).map
            Prod.snd).sum := by
  induction pairs with
  | nil => intro st lang; simp
  | cons p pairs ih =>
    intro st lang
    rw [List.foldl_cons]
    cases hk : keptB p with
    | false =>
      rw [processPair_of_dropped st p hk, ih, List.filter_cons_of_neg (by simp [hk])]
    | true =>
      rw [processPair_of_kept st p hk, ih, List.filter_cons_of_pos (by simp [hk])]
      by_cases hl : p.1 = lang
      · rw [List.filter_cons_of_pos (by simp [hl])]
        simp only [lookupScore_addScore, hl, if_pos, List.map_cons, List.sum_cons]
        ring
      · rw [List.filter_cons_of_neg (by simp [hl])]
        simp [lookupScore_addScore, hl]

lemma addScore_ne_nil (m : List (String × ℚ)) (k : String) (s : ℚ) :
    addScore m k s ≠ [] := by
  cases m with
  | nil => simp [addScore]
  | cons kv rest =>
    obtain ⟨k', v⟩ := kv
    by_cases h : k' = k <;> simp [addScore, h]

lemma foldl_map_eq_nil_iff (pairs : List (String × ℚ)) :
    ∀ st : AggState, (pairs.foldl processPair st).language_score_map = [] ↔
      st.language_score_map = [] ∧ pairs.filter keptB = [] := by
  induction pairs with
  | nil => intro st; simp
  | cons p pairs ih =>
    intro st
    rw [List.foldl_cons]
    cases hk : keptB p with
    | false =>
      rw [processPair_of_dropped st p hk, ih, List.filter_cons_of_neg (by simp [hk])]
    | true =>
      rw [processPair_of_kept st p hk, ih, List.filter_cons_of_pos (by simp [hk])]
      simp [addScore_ne_nil]

lemma valuesSum_addScore (m : List (String × ℚ)) (k : String) (s : ℚ) :
    valuesSum (addScore m k s) = valuesSum m + s := by
  induction m with
  | nil => simp [addScore, valuesSum]
  | cons kv rest ih =>
    obtain ⟨k', v⟩ := kv
    by_cases h : k' = k
    · simp [addScore, h, valuesSum, add_assoc, add_comm]
    · simp [addScore, h, valuesSum] at ih ⊢
      rw [ih]; ring

lemma foldl_valuesSum (pairs : List (String × ℚ)) :
    ∀ st : AggState, valuesSum (pairs.foldl processPair st).language_score_map =
      valuesSum st.language_score_map + ((pairs.filter keptB).map Prod.snd).sum := by
  induction pairs with
  | nil => intro st; simp
  | cons p pairs ih =>
    intro st
    rw [List.foldl_cons]
    cases hk : keptB p with
    | false =>
      rw [processPair_of_dropped st p hk, ih, List.filter_cons_of_neg (by simp [hk])]
    | true =>
      rw [processPair_of_kept st p hk, ih, List.filter_cons_of_pos (by simp [hk])]
      simp only [valuesSum_addScore, List.map_cons, List.sum_cons]
      ring

lemma keys_addScore (m : List (String × ℚ)) (k : String) (s : ℚ) :
    (addScore m k s).map Prod.fst =
      if k ∈ m.map Prod.fst then m.map Prod.fst else m.map Prod.fst ++ [k] := by
  induction m with
  | nil => simp [addScore]
  | cons kv rest ih =>
    obtain ⟨k', v⟩ := kv
    by_cases h : k' = k
    · subst h; simp [addScore]
    · have : ¬ k = k' := fun hh => h hh.symm
      simp [addScore, h, ih, this]
      by_cases hm : k ∈ rest.map Prod.fst <;> simp [hm, this]

lemma nodup_keys_addScore (m : List (String × ℚ)) (k : String) (s : ℚ)
    (h : (m.map Prod.fst).Nodup) : ((addScore m k s).map Prod.fst).Nodup := by
  rw [keys_addScore]
  by_cases hm : k ∈ m.map Prod.fst
  · simpa [hm] using h
  · simp only [hm, if_false, List.nodup_append]
    exact ⟨h, List.nodup_singleton k, by simpa using hm⟩

lemma foldl_nodup_keys (pairs : List (String × ℚ)) :
    ∀ st : AggState, (st.language_score_map.map Prod.fst).Nodup →
      ((pairs.foldl processPair st).language_score_map.map Prod.fst).Nodup := by
  induction pairs with
  | nil => intro st h; simpa using h
  | cons p pairs ih =>
    intro st h
    rw [List.foldl_cons]
    cases hk : keptB p with
    | false => rw [processPair_of_dropped st p hk]; exact ih st h
    | true =>
      rw [processPair_of_kept st p hk]
      exact ih _ (nodup_keys_addScore _ _ _ h)

lemma lookupScore_of_mem (m : List (String × ℚ)) (k : String) (v : ℚ)
    (hnd : (m.map Prod.fst).Nodup) (hmem : (k, v) ∈ m) : lookupScore m k = v := by
  induction m with
  | nil => cases hmem
  | cons kv rest ih =>
    obtain ⟨k', v'⟩ := kv
    rcases List.mem_cons.mp hmem with heq | hrest
    · obtain ⟨h1, h2⟩ := Prod.mk.injEq .. ▸ heq
      simp_all [lookupScore]
    · have hk : k' ≠ k := by
        rintro rfl
        exact (List.nodup_cons.mp hnd).1 (List.mem_map.mpr ⟨(k', v), hrest, rfl⟩)
      simp only [lookupScore, hk, if_false]
      exact ih (List.nodup_cons.mp hnd).2 hrest

/-! ### Properties of `aggregateState` and `aggregate` -/

lemma aggregateState_valid_count (predictions : List (String × List (String × ℚ))) :
    (aggregateState predictions).valid_count = (keptPairs predictions).length := by
  rw [aggregateState_eq_foldl, foldl_valid_count]
  simp [keptPairs]

lemma aggregateState_total_score (predictions : List (String × List (String × ℚ))) :
    (aggregateState predictions).total_score =
      ((keptPairs predictions).map Prod.snd).sum := by
  rw [aggregateState_eq_foldl, foldl_total_score]
  simp [keptPairs]

lemma aggregateState_lookupScore (predictions : List (String × List (String × ℚ)))
    (lang : String) :
    lookupScore (aggregateState predictions).language_score_map lang =
      (((keptPairs predictions).filter (fun p => decide (p.1 = lang))).map
        Prod.snd).sum := by
  rw [aggregateState_eq_foldl, foldl_lookupScore]
  simp [keptPairs, lookupScore]

lemma aggregateState_map_eq_nil_iff (predictions : List (String × List (String × ℚ))) :
    (aggregateState predictions).language_score_map = [] ↔ keptPairs predictions = [] := by
  rw [aggregateState_eq_foldl, foldl_map_eq_nil_iff]
  simp [keptPairs]

lemma aggregateState_valuesSum (predictions : List (String × List (String × ℚ))) :
    valuesSum (aggregateState predictions).language_score_map =
      (aggregateState predictions).total_score := by
  rw [aggregateState_eq_foldl, foldl_valuesSum, foldl_total_score]
  simp [valuesSum]

lemma aggregateState_nodup_keys (predictions : List (String × List (String × ℚ))) :
    ((aggregateState predictions).language_score_map.map Prod.fst).Nodup := by
  rw [aggregateState_eq_foldl]
  exact foldl_nodup_keys _ _ (by simp)

lemma kept_score_ge (p : String × ℚ) (h : keptB p = true) : min_threshold ≤ p.2 := by
  simpa [keptB, not_lt] using h

lemma aggregateState_total_pos (predictions : List (String × List (String × ℚ)))
    (h : keptPairs predictions ≠ []) : 0 < (aggregateState predictions).total_score := by
  rw [aggregateState_total_score]
  apply List.sum_pos
  · intro s hs
    obtain ⟨p, hp, rfl⟩ := List.mem_map.mp hs
    have hk : keptB p = true := List.of_mem_filter hp
    calc (0 : ℚ) < min_threshold := by norm_num [min_threshold]
      _ ≤ p.2 := kept_score_ge p hk
  · simpa using h

lemma aggregate_of_kept_nil (predictions : List (String × List (String × ℚ)))
    (h : keptPairs predictions = []) :
    aggregate predictions = (ERROR_CODE_NO_VALID_LANGUAGE, none) := by
  have hmap : (aggregateState predictions).language_score_map = [] :=
    (aggregateState_map_eq_nil_iff predictions).mpr h
  simp [aggregate, hmap]

lemma aggregate_of_kept_ne_nil (predictions : List (String × List (String × ℚ)))
    (h : keptPairs predictions ≠ []) :
    aggregate predictions = (((keptPairs predictions).length : ℤ),
      some (((aggregateState predictions).language_score_map.map
        (fun p => (p.1, p.2 * 100 / (aggregateState predictions).total_score))).insertionSort
          byPercentDesc)) := by
  have hmap : (aggregateState predictions).language_score_map ≠ [] := by
    rw [ne_eq, aggregateState_map_eq_nil_iff]; exact h
  simp [aggregate, List.length_eq_zero, hmap, aggregateState_valid_count]

lemma aggregate_some_inv (predictions : List (String × List (String × ℚ)))
    (code : ℤ) (l : List (String × ℚ))
    (h : aggregate predictions = (code, some l)) :
    keptPairs predictions ≠ [] ∧ code = ((keptPairs predictions).length : ℤ) ∧
      l = ((aggregateState predictions).language_score_map.map
        (fun p => (p.1, p.2 * 100 / (aggregateState predictions).total_score))).insertionSort
          byPercentDesc := by
  by_cases hk : keptPairs predictions = []
  · rw [aggregate_of_kept_nil predictions hk] at h
    cases h
  · refine ⟨hk, ?_⟩
    rw [aggregate_of_kept_ne_nil predictions hk] at h
    obtain ⟨h1, h2⟩ := Prod.mk.injEq .. ▸ h
    exact ⟨h1.symm, (Option.some_inj.mp h2).symm⟩

lemma sum_scaled (m : List (String × ℚ)) (t : ℚ) :
    ((m.map (fun p => (p.1, p.2 * 100 / t))).map Prod.snd).sum =
      valuesSum m * 100 / t := by
  induction m with
  | nil => simp [valuesSum]
  | cons kv rest ih =>
    simp only [List.map_cons, List.sum_cons, valuesSum] at ih ⊢
    rw [ih]
    ring

/-! ### The claims -/

/-- Claim C1: if the first segmentation pass returns a count `c` with
`0 ≤ c < speech_segment_count`, exactly one second pass is invoked with
threshold `max(speech_score_threshold − 0.2, 0.4)` and duration
`max(speech_segment_duration − 2, 3)`; if `c ≥ speech_segment_count` or
`c < 0`, no retry occurs; and there is never a third attempt regardless of
the retry's yield.  The traced variant records the `(threshold, duration)`
arguments of every `find_speech_list` call and computes the same result as
`find_speech_with_retry`, which `infer_language` uses. -/
theorem C1_retry_policy (args : Args) (sd : SpeechDetecting) (samples : ℕ) :
    (find_speech_with_retry_traced args sd samples).1 =
      find_speech_with_retry args sd samples ∧
    (find_speech_with_retry_traced args sd samples).2.length ≤ 2 ∧
    (0 ≤ (sd.find_speech_list samples args.speech_score_threshold
        args.speech_segment_duration).1 ∧
      (sd.find_speech_list samples args.speech_score_threshold
        args.speech_segment_duration).1 < args.speech_segment_count →
      (find_speech_with_retry_traced args sd samples).2 =
        [(args.speech_score_threshold, args.speech_segment_duration),
          (max (args.speech_score_threshold - 1/5) (2/5),
            max (args.speech_segment_duration - 2) 3)]) ∧
    ((sd.find_speech_list samples args.speech_score_threshold
        args.speech_segment_duration).1 < 0 ∨
      args.speech_segment_count ≤ (sd.find_speech_list samples
        args.speech_score_threshold args.speech_segment_duration).1 →
      (find_speech_with_retry_traced args sd samples).2 =
        [(args.speech_score_threshold, args.speech_segment_duration)]) := by
  by_cases h : 0 ≤ (sd.find_speech_list samples args.speech_score_threshold
      args.speech_segment_duration).1 ∧
    (sd.find_speech_list samples args.speech_score_threshold
      args.speech_segment_duration).1 < args.speech_segment_count
  · refine ⟨?_, ?_, fun _ => ?_, fun hc => ?_⟩
    · simp [find_speech_with_retry, find_speech_with_retry_traced, h]
    · simp [find_speech_with_retry_traced, h]
    · simp [find_speech_with_retry_traced, h]
    · exfalso
      obtain ⟨h1, h2⟩ := h
      rcases hc with hc | hc <;> omega
  · refine ⟨?_, ?_, fun hc => absurd hc h, fun _ => ?_⟩
    · simp [find_speech_with_retry, find_speech_with_retry_traced, h]
    · simp [find_speech_with_retry_traced, h]
    · simp [find_speech_with_retry_traced, h]

/-- Witness for C1: with the default configuration and a detector whose
first pass finds 2 (< 5) segments, the two passes use `(0.7, 5)` and then
`(0.5, 3)`. -/
theorem C1_retry_policy_witness :
    (find_speech_with_retry_traced exArgs sdRetryOk 0).2 = [(7/10, 5), (1/2, 3)] := by
  have h := (C1_retry_policy exArgs sdRetryOk 0).2.2.1
    (by constructor <;> norm_num [exArgs, sdRetryOk])
  rw [h]
  norm_num [exArgs]

/-- Claim C2: every `(language, score)` pair with `score < 0.4` is discarded
and every other pair (including `score = 0.4` exactly) adds `score` to that
language's accumulated score, increments `valid_count` and adds `score` to
`total_score`. -/
theorem C2_aggregation_filtering (predictions : List (String × List (String × ℚ))) :
    (aggregateState predictions).valid_count = (keptPairs predictions).length ∧
    (aggregateState predictions).total_score =
      ((keptPairs predictions).map Prod.snd).sum ∧
    (∀ lang : String,
      lookupScore (aggregateState predictions).language_score_map lang =
        (((keptPairs predictions).filter (fun p => decide (p.1 = lang))).map
          Prod.snd).sum) ∧
    keptPairs predictions =
      (allPairs predictions).filter (fun p => decide (min_threshold ≤ p.2)) := by
  refine ⟨aggregateState_valid_count _, aggregateState_total_score _,
    aggregateState_lookupScore _, ?_⟩
  unfold keptPairs
  congr 1
  funext p
  simp [keptB, ← decide_not, not_lt]

/-- Claim C3: when every score of the batch is below the 0.4 floor, the
language score map stays empty and aggregation returns the distinguished
"no valid language" error code with a null result. -/
theorem C3_no_valid_language (predictions : List (String × List (String × ℚ)))
    (h : ∀ p ∈ allPairs predictions, p.2 < min_threshold) :
    aggregate predictions = (ERROR_CODE_NO_VALID_LANGUAGE, none) := by
  apply aggregate_of_kept_nil
  unfold keptPairs
  rw [List.filter_eq_nil_iff]
  intro p hp
  simp [keptB, h p hp]

/-- Witness for C3: a batch whose only score is 0.3. -/
theorem C3_no_valid_language_witness :
    aggregate exLowPred = (ERROR_CODE_NO_VALID_LANGUAGE, none) :=
  C3_no_valid_language exLowPred (by norm_num [allPairs, exLowPred, min_threshold])

/-- Claim C4: every reported percentage equals the language's accumulated
raw score times 100 divided by `total_score`, and the percentages of a
non-null result sum to exactly 100 (exactly over `ℚ`, hence within any
floating-point tolerance). -/
theorem C4_normalization (predictions : List (String × List (String × ℚ)))
    (code : ℤ) (l : List (String × ℚ))
    (h : aggregate predictions = (code, some l)) :
    (∀ p ∈ l, p.2 =
      lookupScore (aggregateState predictions).language_score_map p.1 * 100 /
        (aggregateState predictions).total_score) ∧
    (l.map Prod.snd).sum = 100 := by
  obtain ⟨hne, -, hl⟩ := aggregate_some_inv predictions code l h
  subst hl
  constructor
  · intro p hp
    rw [List.mem_insertionSort] at hp
    obtain ⟨q, hq, rfl⟩ := List.mem_map.mp hp
    have hlook := lookupScore_of_mem _ q.1 q.2 (aggregateState_nodup_keys predictions)
      (by simpa using hq)
    simp [hlook]
  · have hperm := (List.perm_insertionSort byPercentDesc
      ((aggregateState predictions).language_score_map.map
        (fun p => (p.1, p.2 * 100 / (aggregateState predictions).total_score)))).map
          Prod.snd
    rw [hperm.sum_eq, sum_scaled, aggregateState_valuesSum]
    have ht := aggregateState_total_pos predictions hne
    rw [mul_comm, mul_div_assoc, div_self ht.ne', mul_one]

/-- Witness for C4: on the fixture batch the single surviving language gets
percentage `1.4 * 100 / 1.4 = 100` and the percentages sum to 100. -/
theorem C4_normalization_witness :
    ((100 : ℚ) = lookupScore (aggregateState exPred).language_score_map "eng" * 100 /
      (aggregateState exPred).total_score) ∧
    (([("eng", (100 : ℚ))] : List (String × ℚ)).map Prod.snd).sum = 100 := by
  have h := C4_normalization exPred 2 [("eng", 100)]
    (by norm_num [aggregate, aggregateState, processPair, addScore, min_threshold,
      exPred, List.insertionSort, List.orderedInsert, byPercentDesc])
  exact ⟨h.1 ("eng", 100) (by simp), h.2⟩

/-- Claim C5: a non-null result list is sorted descending by percentage
(ties allowed), and the order — also among equal percentages — is
deterministic for a fixed input batch: any run on the same batch returns
the identical list. -/
theorem C5_sorted_descending (predictions : List (String × List (String × ℚ)))
    (code : ℤ) (l : List (String × ℚ))
    (h : aggregate predictions = (code, some l)) :
    List.Sorted byPercentDesc l ∧
    ∀ (code' : ℤ) (l' : List (String × ℚ)),
      aggregate predictions = (code', some l') → l' = l := by
  obtain ⟨-, -, hl⟩ := aggregate_some_inv predictions code l h
  constructor
  · rw [hl]
    exact List.sorted_insertionSort byPercentDesc _
  · intro code' l' h'
    obtain ⟨-, h2⟩ := Prod.mk.injEq .. ▸ (h.symm.trans h')
    exact (Option.some_inj.mp h2).symm

/-- Witness for C5: the fixture batch's result list is sorted descending. -/
theorem C5_sorted_descending_witness :
    List.Sorted byPercentDesc ([("eng", (100 : ℚ))] : List (String × ℚ)) :=
  (C5_sorted_descending exPred 2 [("eng", 100)]
    (by norm_num [aggregate, aggregateState, processPair, addScore, min_threshold,
      exPred, List.insertionSort, List.orderedInsert, byPercentDesc])).1

/-- Claim C6: on a successful aggregation the status code returned by
`infer_language` equals `valid_count`, the number of `(segment, language)`
pairs that passed the 0.4 filter — and that number can differ from the
number of distinct languages in the result list. -/
theorem C6_status_is_valid_count (args : Args) (sd : SpeechDetecting)
    (li : LanguageIdentify) (audio_file : String)
    (h0 : 0 ≤ (sd.load_audio_samples audio_file).1)
    (h1 : 0 ≤ (find_speech_with_retry args sd (sd.load_audio_samples audio_file).2).1)
    (h2 : keptPairs (li.infer ((find_speech_with_retry args sd
      (sd.load_audio_samples audio_file).2).2.map SpeechObj.samples)) ≠ []) :
    infer_language args sd li audio_file = InferResult.ret
      ((keptPairs (li.infer ((find_speech_with_retry args sd
        (sd.load_audio_samples audio_file).2).2.map SpeechObj.samples))).length : ℤ)
      (aggregate (li.infer ((find_speech_with_retry args sd
        (sd.load_audio_samples audio_file).2).2.map SpeechObj.samples))).2 ∧
    ∃ (p : List (String × List (String × ℚ))) (l' : List (String × ℚ)),
      aggregate p = (((keptPairs p).length : ℤ), some l') ∧
      l'.length ≠ (keptPairs p).length := by
  constructor
  · have hload : ¬ (sd.load_audio_samples audio_file).1 < 0 := not_lt.mpr h0
    have hfind : ¬ (find_speech_with_retry args sd
        (sd.load_audio_samples audio_file).2).1 < 0 := not_lt.mpr h1
    simp only [infer_language, hload, if_false, hfind]
    rw [aggregate_of_kept_ne_nil _ h2]
  · refine ⟨exPred, [("eng", 100)], ?_, ?_⟩
    · norm_num [aggregate, aggregateState, processPair, addScore, min_threshold,
        exPred, keptPairs, allPairs, keptB, List.insertionSort, List.orderedInsert,
        byPercentDesc]
    · norm_num [keptPairs, allPairs, keptB, exPred, min_threshold]

/-- Witness for C6: with the fixture oracles, `infer_language` returns
status 2 (two surviving pairs) although only one distinct language remains. -/
theorem C6_status_is_valid_count_witness :
    infer_language exArgs sdRetryOk liEx "f" = InferResult.ret
      ((keptPairs (liEx.infer ((find_speech_with_retry exArgs sdRetryOk
        (sdRetryOk.load_audio_samples "f").2).2.map SpeechObj.samples))).length : ℤ)
      (aggregate (liEx.infer ((find_speech_with_retry exArgs sdRetryOk
        (sdRetryOk.load_audio_samples "f").2).2.map SpeechObj.samples))).2 :=
  (C6_status_is_valid_count exArgs sdRetryOk liEx "f"
    (by norm_num [sdRetryOk])
    (by norm_num [find_speech_with_retry, exArgs, sdRetryOk])
    (by norm_num [keptPairs, allPairs, keptB, liEx, exPred, min_threshold]
        exact List.cons_ne_nil _ _)).1

/-- Claim C7: whenever the segmentation stage (after any retry) yields a
negative status, `infer_language` returns that status with a null result and
the classifier oracle is never consulted (the outcome is the same for every
classifier). -/
theorem C7_segmenter_failure_short_circuit (args : Args) (sd : SpeechDetecting)
    (li : LanguageIdentify) (audio_file : String)
    (h0 : 0 ≤ (sd.load_audio_samples audio_file).1)
    (h1 : (find_speech_with_retry args sd (sd.load_audio_samples audio_file).2).1 < 0) :
    infer_language args sd li audio_file = InferResult.ret
      (find_speech_with_retry args sd (sd.load_audio_samples audio_file).2).1 none ∧
    ∀ li' : LanguageIdentify,
      infer_language args sd li' audio_file = infer_language args sd li audio_file := by
  have hload : ¬ (sd.load_audio_samples audio_file).1 < 0 := not_lt.mpr h0
  have hmain : ∀ li'' : LanguageIdentify,
      infer_language args sd li'' audio_file = InferResult.ret
        (find_speech_with_retry args sd (sd.load_audio_samples audio_file).2).1 none := by
    intro li''
    simp [infer_language, hload, h1]
  exact ⟨hmain li, fun li' => (hmain li').trans (hmain li).symm⟩

/-- Witness for C7: a detector that always fails with `-2` makes
`infer_language` return `(-2, null)`. -/
theorem C7_segmenter_failure_short_circuit_witness :
    infer_language exArgs sdFindFail liEx "f" = InferResult.ret
      (find_speech_with_retry exArgs sdFindFail
        (sdFindFail.load_audio_samples "f").2).1 none :=
  (C7_segmenter_failure_short_circuit exArgs sdFindFail liEx "f"
    (by norm_num [sdFindFail])
    (by norm_num [find_speech_with_retry, exArgs, sdFindFail])).1

/-- Claim C8: the language score map is empty iff no pair cleared the 0.4
floor; a returned non-null result list is never empty; and when no pair
clears the floor the aggregation returns the error code with a null result. -/
theorem C8_result_empty_iff (predictions : List (String × List (String × ℚ))) :
    ((aggregateState predictions).language_score_map = [] ↔
      keptPairs predictions = []) ∧
    (∀ (code : ℤ) (l : List (String × ℚ)),
      aggregate predictions = (code, some l) → l ≠ []) ∧
    (keptPairs predictions = [] →
      aggregate predictions = (ERROR_CODE_NO_VALID_LANGUAGE, none)) := by
  refine ⟨aggregateState_map_eq_nil_iff predictions, ?_,
    aggregate_of_kept_nil predictions⟩
  intro code l h
  obtain ⟨hne, -, hl⟩ := aggregate_some_inv predictions code l h
  subst hl
  have hmap : (aggregateState predictions).language_score_map ≠ [] := by
    rw [ne_eq, aggregateState_map_eq_nil_iff]
    exact hne
  intro hnil
  have hlen := congrArg List.length hnil
  rw [List.length_insertionSort, List.length_map] at hlen
  exact hmap (List.length_eq_zero.mp (by simpa using hlen))

/-- Witness for C8: the fixture's non-null result is non-empty, and the
all-below-floor batch yields the error code with a null result. -/
theorem C8_result_empty_iff_witness :
    ([("eng", (100 : ℚ))] : List (String × ℚ)) ≠ [] ∧
    aggregate exLowPred = (ERROR_CODE_NO_VALID_LANGUAGE, none) :=
  ⟨(C8_result_empty_iff exPred).2.1 2 [("eng", 100)]
      (by norm_num [aggregate, aggregateState, processPair, addScore, min_threshold,
        exPred, List.insertionSort, List.orderedInsert, byPercentDesc]),
    (C8_result_empty_iff exLowPred).2.2
      (by norm_num [keptPairs, allPairs, keptB, exLowPred, min_threshold])⟩

/-- Claim C9: a negative status from `load_audio_samples` terminates the
process (`exit(1)`) instead of returning to the caller, and neither the
segmenter nor the classifier influence the outcome. -/
theorem C9_load_failure_exits (args : Args) (sd : SpeechDetecting)
    (li : LanguageIdentify) (audio_file : String)
    (h : (sd.load_audio_samples audio_file).1 < 0) :
    infer_language args sd li audio_file = InferResult.exit 1 ∧
    ∀ (find' : ℕ → ℚ → ℤ → ℤ × List SpeechObj) (li' : LanguageIdentify),
      infer_language args { sd with find_speech_list := find' } li' audio_file =
        InferResult.exit 1 := by
  constructor
  · simp [infer_language, h]
  · intro find' li'
    simp [infer_language, h]

/-- Witness for C9: a failing loader makes `infer_language` exit with code 1. -/
theorem C9_load_failure_exits_witness :
    infer_language exArgs sdLoadFail liEx "f" = InferResult.exit 1 :=
  (C9_load_failure_exits exArgs sdLoadFail liEx "f" (by norm_num [sdLoadFail])).1

/-- Claim C10: when the first pass finds `c` segments with
`0 ≤ c < speech_segment_count` and the retry pass returns a negative status,
`infer_language` returns that negative status with a null result; the first
pass's segments are discarded and never reach the classifier (the outcome is
the same for every classifier). -/
theorem C10_retry_outcome_replaces_first (args : Args) (sd : SpeechDetecting)
    (li : LanguageIdentify) (audio_file : String) (c : ℤ) (l1 : List SpeechObj)
    (c2 : ℤ) (l2 : List SpeechObj)
    (h0 : 0 ≤ (sd.load_audio_samples audio_file).1)
    (h1 : sd.find_speech_list (sd.load_audio_samples audio_file).2
      args.speech_score_threshold args.speech_segment_duration = (c, l1))
    (h2 : 0 ≤ c) (h3 : c < args.speech_segment_count)
    (h4 : sd.find_speech_list (sd.load_audio_samples audio_file).2
      (max (args.speech_score_threshold - 1/5) (2/5))
      (max (args.speech_segment_duration - 2) 3) = (c2, l2))
    (h5 : c2 < 0) :
    infer_language args sd li audio_file = InferResult.ret c2 none ∧
    ∀ li' : LanguageIdentify,
      infer_language args sd li' audio_file = InferResult.ret c2 none := by
  have hload : ¬ (sd.load_audio_samples audio_file).1 < 0 := not_lt.mpr h0
  have hretry : find_speech_with_retry args sd (sd.load_audio_samples audio_file).2 =
      (c2, l2) := by
    simp only [find_speech_with_retry]
    rw [h1, if_pos ⟨h2, h3⟩]
    exact h4
  have hmain : ∀ li'' : LanguageIdentify,
      infer_language args sd li'' audio_file = InferResult.ret c2 none := by
    intro li''
    simp [infer_language, hload, hretry, h5]
  exact ⟨hmain li, hmain⟩

/-- Witness for C10: first pass finds 2 segments, retry fails with `-3`;
`infer_language` returns `(-3, null)`. -/
theorem C10_retry_outcome_replaces_first_witness :
    infer_language exArgs sdRetryNeg liEx "f" = InferResult.ret (-3) none :=
  (C10_retry_outcome_replaces_first exArgs sdRetryNeg liEx "f" 2 [exSpeech] (-3) []
    (by norm_num [sdRetryNeg])
    (by norm_num [sdRetryNeg, exArgs])
    (by norm_num) (by norm_num [exArgs])
    (by norm_num [sdRetryNeg, exArgs])
    (by norm_num)).1

end AudioLid
